import Mathlib

/-!
# Verification of the envconfig2 environment-configuration loader

A shallow embedding of the `envconfig` Go package: the environment and the
file system are modelled as association lists of strings, the option record,
struct-tag metadata, key resolution, value resolution (including
file-indirection), the `Process` loop and `CheckDisallowed` are translated
from the Go source.  Reflection-driven parts (walking a struct value) are
represented by explicit lists of discovered variables; the type-coercion
switch of `processField` is represented abstractly by coercion parameters,
with its map branch translated concretely.
-/

namespace Envconfig

/-- The process environment, as an association list of `(name, value)` pairs
in enumeration order.  `os.LookupEnv` is lookup of the first matching name;
`os.Environ` is the list itself rendered as `name=value` entries. -/
abbrev Env := List (String × String)

/-- The file system, as an association list `(path, contents)`.  A path that
is absent models a failing `os.ReadFile`. -/
abbrev Fs := List (String × String)

/-- Model of `os.LookupEnv`. -/
def lookupEnv (env : Env) (name : String) : Option String :=
  (env.find? (fun p => p.1 == name)).map (·.2)

/-- Model of `os.ReadFile`: `none` is a read error, `some` the full contents. -/
def readFile (fs : Fs) (path : String) : Option String :=
  (fs.find? (fun p => p.1 == path)).map (·.2)

/-- Go `unicode.IsSpace` on the Latin-1 range: `'\t'..'\r'`, `' '`, U+0085,
U+00A0 (the characters relevant to the keys and values modelled here). -/
def isSpaceGo (c : Char) : Bool :=
  c == ' ' || (9 ≤ c.toNat && c.toNat ≤ 13) || c.toNat == 0x85 || c.toNat == 0xA0

/-- Model of Go `strings.TrimSpace`. -/
def goTrimSpace (s : String) : String :=
  String.mk (((s.toList.dropWhile isSpaceGo).reverse.dropWhile isSpaceGo).reverse)

/-- Model of Go `unicode.ToUpper` restricted to ASCII (all keys, prefixes and
suffixes handled by the claims are ASCII; non-ASCII characters are left
unchanged by this model). -/
def toUpperChar (c : Char) : Char :=
  if 'a' ≤ c && c ≤ 'z' then Char.ofNat (c.toNat - 32) else c

/-- Model of Go `strings.ToUpper` (character-wise). -/
def goToUpper (s : String) : String := String.mk (s.toList.map toUpperChar)

/-- Model of Go `strings.HasPrefix`. -/
def startsWithGo (s pre : String) : Bool := List.isPrefixOf pre.toList s.toList

/-- Model of Go `strconv.ParseBool`. -/
def parseBool (s : String) : Option Bool :=
  if s = "1" || s = "t" || s = "T" || s = "true" || s = "TRUE" || s = "True" then some true
  else if s = "0" || s = "f" || s = "F" || s = "false" || s = "FALSE" || s = "False" then
    some false
  else none

/-- Translation of `isTrue` from `process.go`: `ParseBool`, with `false` on a parse error. -/
def isTrue (s : String) : Bool := (parseBool s).getD false

/-- Translation of `DefaultFileSuffix` from the options file. -/
def DefaultFileSuffix : String := "_FILE"

/-- The `options` struct.  The Go field `prefix` is called `prefixStr` here
(`prefix` is reserved in Lean). -/
structure options where
  prefixStr : String
  isLoadFromFile : Bool
  defaultFileSuffix : String
  trimSpaces : Bool
deriving DecidableEq

/-- Translation of `defaultOptions` from the options file. -/
def defaultOptions : options :=
  { prefixStr := ""
    isLoadFromFile := true
    defaultFileSuffix := DefaultFileSuffix
    trimSpaces := true }

/-- Translation of `options.copy` from the options file: the Go composite literal lists
`prefix`, `isLoadFromFile` and `defaultFileSuffix` only, so `trimSpaces`
receives the Go zero value `false`. -/
def options.copy (o : options) : options :=
  { prefixStr := o.prefixStr
    isLoadFromFile := o.isLoadFromFile
    defaultFileSuffix := o.defaultFileSuffix
    trimSpaces := false }

/-- Translation of `WithPrefix` from the options file (restricted to its effect on the
option record). -/
def WithPrefix (p : String) (o : options) : options :=
  { o with prefixStr := goToUpper p }

/-- The struct-tag metadata of one field, with Go's `Tag.Get`/`Tag.Lookup`
semantics: `Get` keys are strings defaulting to `""` when the tag is absent,
`Lookup` keys are `Option`s.  The Go tag key `default` is called
`defaultTag` here. -/
structure StructTag where
  envconfig : String := ""
  ignored : String := ""
  defaultTag : Option String := none
  splitWords : String := ""
  required : String := ""
  file : Option String := none
deriving DecidableEq

/-- The part of `reflect.StructField` that the translated code consults:
identifier, tags, and whether the field is embedded (`Anonymous`). -/
structure StructField where
  name : String
  tag : StructTag := {}
  anonymous : Bool := false
deriving DecidableEq

/-- The class `[A-Z]` of the key-splitting regular expressions. -/
def isUpperAZ (c : Char) : Bool := 'A' ≤ c && c ≤ 'Z'

/-- Tokenisation loop of `gatherRegexp = ([^A-Z]+|[A-Z]+[^A-Z]+|[A-Z]+)`
under Go's leftmost-first greedy matching: the input decomposes into maximal
tokens, a new token starting exactly where an `[A-Z]` character follows a
`[^A-Z]` character.  `prev` is the previous character, `accRev` the current
token reversed (containing `prev`). -/
def gatherGo (prev : Char) (accRev : List Char) : List Char → List (List Char)
  | [] => [accRev.reverse]
  | c :: cs =>
    if isUpperAZ c && !isUpperAZ prev then accRev.reverse :: gatherGo c [c] cs
    else gatherGo c (c :: accRev) cs

/-- All matches of `gatherRegexp` (`FindAllStringSubmatch`). -/
def gatherTokens : List Char → List (List Char)
  | [] => []
  | c :: cs => gatherGo c [c] cs

/-- One token through `acronymRegexp = ([A-Z]+)([A-Z][^A-Z]+)`
(`FindStringSubmatch`): a token shaped as an upper-case run of length ≥ 2
followed by a non-empty non-upper-case run splits into the run minus its
last character and the remainder; any other token is kept whole. -/
def acronymSplit (tok : List Char) : List String :=
  let ups := tok.takeWhile isUpperAZ
  let rest := tok.dropWhile isUpperAZ
  if 2 ≤ ups.length && !rest.isEmpty then
    [String.mk (ups.take (ups.length - 1)), String.mk (ups.drop (ups.length - 1) ++ rest)]
  else [String.mk tok]

/-- Translation of `splitWords` from `variable.go`. -/
def splitWords (s : String) : List String :=
  ((gatherTokens s.toList).map acronymSplit).flatten

/-- Translation of `resolveKey` from `variable.go`. -/
def resolveKey (prefixStr : String) (fieldType : StructField) : String × String :=
  let altKey := goTrimSpace fieldType.tag.envconfig
  if altKey ≠ "" then
    let a := goToUpper altKey
    let key := if prefixStr ≠ "" then prefixStr ++ "_" ++ a else a
    (goToUpper key, a)
  else
    let key :=
      if isTrue fieldType.tag.splitWords then String.intercalate "_" (splitWords fieldType.name)
      else fieldType.name
    let key := if prefixStr ≠ "" then prefixStr ++ "_" ++ key else key
    (goToUpper key, "")

/-- The `variable` record of `variable.go` (the reflective `field` handle is
not needed by the translated value-resolution code).  `variable` is reserved
in Lean, hence the capital. -/
structure Variable where
  key : String
  altKey : String
  fieldType : StructField
  Opts : options
deriving DecidableEq

/-- The errors produced by value resolution (`loadFromFile`), by payload:
Go's `fmt.Errorf("environment vairable %s is empty", tagValue)` and the
error of a failed `os.ReadFile`. -/
inductive VError where
  | emptyFilePathVar (tagValue : String)
  | fileReadError (filePath : String)
deriving DecidableEq

/-- Translation of `variable.isRequired` from `variable.go`. -/
def Variable.isRequired (v : Variable) : Bool := isTrue v.fieldType.tag.required

/-- Translation of `variable.resolveFileLoading` from `variable.go`: `some tagValue` stands
for `(tagValue, true)`, `none` for `("", false)`. -/
def Variable.resolveFileLoading (v : Variable) : Option String :=
  match v.fieldType.tag.file with
  | some tagFileValue =>
    match parseBool tagFileValue with
    | some tagFileBool => if tagFileBool then some "" else none
    | none => some tagFileValue
  | none => if v.Opts.isLoadFromFile then some "" else none

/-- Translation of `variable.loadFromFile` from `variable.go`: `.ok none` is
`("", false, nil)` ("not found"), `.ok (some value)` is `(value, true, nil)`,
`.error e` is a non-nil error (Go then returns the zero value and
`isLoaded = false`). -/
def Variable.loadFromFile (env : Env) (fs : Fs) (v : Variable) (envName : String) :
    Except VError (Option String) :=
  match v.resolveFileLoading with
  | none => .ok none
  | some tagValue0 =>
    let tagValue :=
      if goTrimSpace tagValue0 = "" then v.Opts.defaultFileSuffix else goTrimSpace tagValue0
    let fileEnvName := goToUpper (envName ++ tagValue)
    match lookupEnv env fileEnvName with
    | none => .ok none
    | some filePath0 =>
      let filePath := goTrimSpace filePath0
      if filePath = "" then .error (.emptyFilePathVar tagValue)
      else
        match readFile fs filePath with
        | none => .error (.fileReadError filePath)
        | some contents => .ok (some contents)

/-- Translation of `variable.tryEnv` from `variable.go`: the direct environment value if
present, otherwise `loadFromFile` for the same key name. -/
def Variable.tryEnv (env : Env) (fs : Fs) (v : Variable) (envName : String) :
    Except VError (Option String) :=
  match lookupEnv env envName with
  | some value => .ok (some value)
  | none => v.loadFromFile env fs envName

/-- The `for _, envName := range envNames` loop of `variable.value`: stop at
the first error or the first loaded value. -/
def Variable.tryEnvNames (env : Env) (fs : Fs) (v : Variable) :
    List String → Except VError (Option String)
  | [] => .ok none
  | envName :: rest =>
    match v.tryEnv env fs envName with
    | .error e => .error e
    | .ok (some value) => .ok (some value)
    | .ok none => v.tryEnvNames env fs rest

/-- Translation of `variable.value` from `variable.go`: try `key` then (when non-empty)
`altKey`, trim the loaded value when `trimSpaces` is set, and fall back to
the `default` tag (`.ok none` models `isLoaded = false`). -/
def Variable.value (env : Env) (fs : Fs) (v : Variable) : Except VError (Option String) :=
  let envNames := [v.key] ++ (if v.altKey ≠ "" then [v.altKey] else [])
  match v.tryEnvNames env fs envNames with
  | .error e => .error e
  | .ok (some value) => .ok (some (if v.Opts.trimSpaces then goTrimSpace value else value))
  | .ok none => .ok v.fieldType.tag.defaultTag

/-- The child options computed by `gatherInfo` in `variable.go` before
recursing into a struct-typed field: `innerOpts := opts.copy()`, and for a
non-embedded field `innerOpts.prefix = varItem.key`. -/
def innerOptions (opts : options) (fieldType : StructField) (varItemKey : String) : options :=
  let innerOpts := opts.copy
  if !fieldType.anonymous then { innerOpts with prefixStr := varItemKey } else innerOpts

/-- The errors of the `Process` loop in `process.go`, by payload:
a value-resolution error, `"required key %s missing value"`, and
`ParseError{KeyName, FieldName, Value, Err}` (the reflective `TypeName` is
not modelled). -/
inductive ProcErr where
  | valueError (e : VError)
  | requiredKeyMissing (key : String)
  | parseError (keyName fieldName value cause : String)
deriving DecidableEq

/-- The per-variable loop of `Process` in `process.go`, over the list of
discovered variables, with the type coercion of `processField` abstracted as
`coerce` (`none` = success, `some cause` = the coercion error wrapped into a
`ParseError`). -/
def processVars (env : Env) (fs : Fs) (coerce : Variable → String → Option String) :
    List Variable → Except ProcErr Unit
  | [] => .ok ()
  | v :: rest =>
    match v.value env fs with
    | .error e => .error (.valueError e)
    | .ok none =>
      if v.isRequired then .error (.requiredKeyMissing v.key)
      else processVars env fs coerce rest
    | .ok (some value) =>
      match coerce v value with
      | some cause => .error (.parseError v.key v.fieldType.name value cause)
      | none => processVars env fs coerce rest

/-- One `os.Environ()` entry for an environment pair. -/
def environEntry (p : String × String) : String := p.1 ++ "=" ++ p.2

/-- Model of `strings.SplitN(env, "=", 2)[0]`: the entry up to the first `=`. -/
def entryName (entry : String) : String :=
  String.mk (entry.toList.takeWhile (fun c => c ≠ '='))

/-- The `for _, env := range os.Environ()` loop of `CheckDisallowed`:
skip entries without the prefix, return the first prefixed entry whose name
is not a discovered key. -/
def checkDisallowedLoop (keys : List String) (pfx : String) : List String → Option String
  | [] => none
  | entry :: rest =>
    if !startsWithGo entry pfx then checkDisallowedLoop keys pfx rest
    else
      let v := entryName entry
      if v ∈ keys then checkDisallowedLoop keys pfx rest
      else some v

/-- Translation of `CheckDisallowed` from `process.go`, taking the discovered variables
(the output of `gatherInfo`) as input: the whitelist is the set of their
`key`s, the scanned prefix is `upper(prefix) + "_"` when non-empty, and the
result is `some name` for Go's `"unknown environment variable %s"` error. -/
def CheckDisallowed (env : Env) (infos : List Variable) (opts : options) : Option String :=
  let keys := infos.map (·.key)
  let pfx := if opts.prefixStr ≠ "" then goToUpper opts.prefixStr ++ "_" else opts.prefixStr
  checkDisallowedLoop keys pfx (env.map environEntry)

/-- Model of Go `strings.Split` with a one-character separator. -/
def splitOnCharAux (sep : Char) (accRev : List Char) : List Char → List String
  | [] => [String.mk accRev.reverse]
  | c :: cs =>
    if c = sep then String.mk accRev.reverse :: splitOnCharAux sep [] cs
    else splitOnCharAux sep (c :: accRev) cs

/-- Model of Go `strings.Split(s, sep)` for a one-character separator. -/
def splitOnChar (sep : Char) (s : String) : List String := splitOnCharAux sep [] s.toList

/-- The `for _, pair := range pairs` loop of `processField`'s map branch in
`process.go`: split each pair on `:`, error on a pair without exactly two
parts (Go's `"invalid map item: %q"`), coerce key and value parts through
the given sub-coercers, and collect the inserted entries in order. -/
def processFieldMapPairs {κ ν : Type} (procK : String → Except String κ)
    (procV : String → Except String ν) : List String → Except String (List (κ × ν))
  | [] => .ok []
  | pair :: rest =>
    match splitOnChar ':' pair with
    | [k0, v0] => do
      let k ← procK k0
      let v ← procV v0
      let tail ← processFieldMapPairs procK procV rest
      return (k, v) :: tail
    | _ => .error ("invalid map item: \"" ++ pair ++ "\"")

/-- The map branch of `processField` in `process.go`: an empty or
whitespace-only value yields the empty (freshly made, non-nil) map,
otherwise the value is split on `,` and each pair is processed. -/
def processFieldMap {κ ν : Type} (procK : String → Except String κ)
    (procV : String → Except String ν) (value : String) : Except String (List (κ × ν)) :=
  if goTrimSpace value = "" then .ok []
  else processFieldMapPairs procK procV (splitOnChar ',' value)

/-- The `reflect.String` branch of `processField`: `SetString` stores the
string verbatim. -/
def coerceString (s : String) : Except String String := .ok s

/-- Digit value accepted by Go `strconv`. -/
def digitVal (c : Char) : Option Nat :=
  if '0' ≤ c && c ≤ '9' then some (c.toNat - 48)
  else if 'a' ≤ c && c ≤ 'z' then some (c.toNat - 87)
  else if 'A' ≤ c && c ≤ 'Z' then some (c.toNat - 55)
  else none

/-- Digit-string accumulation of Go `strconv.ParseUint`. -/
def parseDigitsAux (base : Nat) : List Char → Nat → Option Nat
  | [], acc => some acc
  | c :: cs, acc =>
    match digitVal c with
    | some d => if d < base then parseDigitsAux base cs (acc * base + d) else none
    | none => none

/-- Base detection of Go `strconv` for base argument 0: `0x`/`0X` hex,
`0o`/`0O` octal, `0b`/`0B` binary, a remaining leading `0` octal, else
decimal. -/
def detectBase : List Char → Nat × List Char
  | '0' :: 'x' :: rest => (16, rest)
  | '0' :: 'X' :: rest => (16, rest)
  | '0' :: 'o' :: rest => (8, rest)
  | '0' :: 'O' :: rest => (8, rest)
  | '0' :: 'b' :: rest => (2, rest)
  | '0' :: 'B' :: rest => (2, rest)
  | '0' :: rest => (8, '0' :: rest)
  | cs => (10, cs)

/-- Model of Go `strconv.ParseInt(s, 0, 64)` (the `reflect.Int` branch of
`processField` on a 64-bit platform), without digit-separating underscores:
optional sign, base detection, digits, and the int64 range check. -/
def parseIntGo (s : String) : Except String Int :=
  match s.toList with
  | [] => .error "invalid syntax"
  | cs =>
    let signed : Bool × List Char :=
      match cs with
      | '+' :: r => (false, r)
      | '-' :: r => (true, r)
      | r => (false, r)
    let based := detectBase signed.2
    if based.2.isEmpty then .error "invalid syntax"
    else
      match parseDigitsAux based.1 based.2 0 with
      | none => .error "invalid syntax"
      | some n =>
        let i : Int := if signed.1 then -(n : Int) else (n : Int)
        if -(2 ^ 63) ≤ i ∧ i ≤ 2 ^ 63 - 1 then .ok i else .error "value out of range"

deriving instance DecidableEq for Except

/-- The effective file suffix of a variable, a derived notion used to state
claims about `loadFromFile`: `none` when file loading does not apply,
otherwise the trimmed tag-supplied suffix or, when that is empty, the
options' default suffix. -/
def Variable.resolvedSuffix (v : Variable) : Option String :=
  v.resolveFileLoading.map fun t =>
    if goTrimSpace t = "" then v.Opts.defaultFileSuffix else goTrimSpace t

/-- The file-indirection step as the spec describes it: look up the derived
path variable; if absent this is "not found"; if present but (trimmed) empty
this is an error; otherwise read the referenced file, erroring when the read
fails. -/
def fileIndirection (env : Env) (fs : Fs) (fileEnvName suffixName : String) :
    Except VError (Option String) :=
  match lookupEnv env fileEnvName with
  | none => .ok none
  | some filePath0 =>
    let filePath := goTrimSpace filePath0
    if filePath = "" then .error (.emptyFilePathVar suffixName)
    else
      match readFile fs filePath with
      | none => .error (.fileReadError filePath)
      | some contents => .ok (some contents)

/-- The value-resolution cascade exactly as claim C1 words it: (1) the
environment variable named `key`; (2) on absence, file-indirection for
`key`; (3) the environment variable named `altKey` and then its
file-indirection; (4) the tag-declared default.  Loaded values are trimmed
when the option is set, the default is not. -/
def valueSpec (env : Env) (fs : Fs) (v : Variable) : Except VError (Option String) :=
  let post := fun val => if v.Opts.trimSpaces then goTrimSpace val else val
  match lookupEnv env v.key with
  | some val => .ok (some (post val))
  | none =>
    match v.loadFromFile env fs v.key with
    | .error e => .error e
    | .ok (some val) => .ok (some (post val))
    | .ok none =>
      if v.altKey ≠ "" then
        match lookupEnv env v.altKey with
        | some val => .ok (some (post val))
        | none =>
          match v.loadFromFile env fs v.altKey with
          | .error e => .error e
          | .ok (some val) => .ok (some (post val))
          | .ok none => .ok v.fieldType.tag.defaultTag
      else .ok v.fieldType.tag.defaultTag

/-- A variable at which the `Process` loop proceeds to the next variable:
either nothing was loaded and the field is not required, or a value was
loaded and its coercion succeeds. -/
def procStepOk (env : Env) (fs : Fs) (coerce : Variable → String → Option String)
    (u : Variable) : Prop :=
  (u.value env fs = .ok none ∧ u.isRequired = false) ∨
  (∃ val, u.value env fs = .ok (some val) ∧ coerce u val = none)

/-- A map pair token at which the map branch of `processField` proceeds:
it splits on `:` into exactly two parts and both parts coerce. -/
def mapPairOk {κ ν : Type} (procK : String → Except String κ)
    (procV : String → Except String ν) (pair : String) : Prop :=
  ∃ k0 v0 k v, splitOnChar ':' pair = [k0, v0] ∧ procK k0 = .ok k ∧ procV v0 = .ok v

/-- An environment entry that `CheckDisallowed` passes over: if it carries
the scanned prefix, its name is a discovered key. -/
def entryOk (keys : List String) (pfx : String) (entry : String) : Prop :=
  startsWithGo entry pfx = true → entryName entry ∈ keys

/-- A field keyed `FOO` with no tags under the default options. -/
def fooVar : Variable :=
  { key := "FOO", altKey := "", fieldType := { name := "Foo" }, Opts := defaultOptions }

/-- An environment holding only `FOO_FILE=/path/to/file`. -/
def fooEnv : Env := [("FOO_FILE", "/path/to/file")]

/-- A file system in which `/path/to/file` contains `secret`. -/
def fooFs : Fs := [("/path/to/file", "secret")]

/-- The options produced by `defaultOptions().apply(WithPrefix("app"))`. -/
def appOpts : options := WithPrefix "app" defaultOptions

/-- The single discovered variable of a spec declaring only `APP_PORT`
under prefix `APP`. -/
def portVar : Variable :=
  { key := "APP_PORT", altKey := "", fieldType := { name := "Port" }, Opts := appOpts }

/-- A discovered variable keyed `APP_SECRET` with file-indirection enabled
(the default). -/
def secretVar : Variable :=
  { key := "APP_SECRET", altKey := "", fieldType := { name := "Secret" }, Opts := appOpts }

/-- A required field keyed `NEEDED` with no default tag. -/
def requiredVar : Variable :=
  { key := "NEEDED", altKey := ""
    fieldType := { name := "Needed", tag := { required := "true" } }
    Opts := defaultOptions }

/-- A field keyed `K` whose `file` tag holds the custom suffix `_PATH`. -/
def pathVar : Variable :=
  { key := "K", altKey := ""
    fieldType := { name := "K", tag := { file := some "_PATH" } }
    Opts := defaultOptions }

/-! ## Helper lemmas -/

theorem char_toNat_ofNat_valid {n : Nat} (h : n.isValidChar) : (Char.ofNat n).toNat = n := by
  rw [Char.ofNat, dif_pos h]
  rfl

theorem char_le_iff_toNat {a b : Char} : a ≤ b ↔ a.toNat ≤ b.toNat := by
  rw [Char.le_def]
  exact ⟨fun h => h, fun h => h⟩

theorem toUpperChar_of_lower {c : Char} (h : ('a' ≤ c && c ≤ 'z') = true) :
    (toUpperChar c).toNat = c.toNat - 32 := by
  rw [toUpperChar, if_pos h]
  simp only [Bool.and_eq_true, decide_eq_true_eq] at h
  have h1 : (97 : Nat) ≤ c.toNat := char_le_iff_toNat.mp h.1
  have h2 : c.toNat ≤ 122 := char_le_iff_toNat.mp h.2
  exact char_toNat_ofNat_valid (Or.inl (by omega))

theorem toUpperChar_of_not_lower {c : Char} (h : ¬ ('a' ≤ c && c ≤ 'z') = true) :
    toUpperChar c = c := by
  rw [toUpperChar, if_neg h]

theorem toUpperChar_idem (c : Char) : toUpperChar (toUpperChar c) = toUpperChar c := by
  by_cases h : ('a' ≤ c && c ≤ 'z') = true
  · have hlow : ('a' ≤ c && c ≤ 'z') = true := h
    simp only [Bool.and_eq_true, decide_eq_true_eq] at h
    have h2 : c.toNat ≤ 122 := char_le_iff_toNat.mp h.2
    apply toUpperChar_of_not_lower
    simp only [Bool.and_eq_true, decide_eq_true_eq, not_and]
    intro h1
    have h97 : (97 : Nat) ≤ (toUpperChar c).toNat := char_le_iff_toNat.mp h1
    rw [toUpperChar_of_lower hlow] at h97
    omega
  · rw [toUpperChar_of_not_lower h]
    exact toUpperChar_of_not_lower h

theorem toUpperChar_eq_eq {c : Char} (h : toUpperChar c = '=') : c = '=' := by
  by_cases hl : ('a' ≤ c && c ≤ 'z') = true
  · exfalso
    have := congrArg Char.toNat h
    rw [toUpperChar_of_lower hl] at this
    simp only [Bool.and_eq_true, decide_eq_true_eq] at hl
    have h1 : (97 : Nat) ≤ c.toNat := char_le_iff_toNat.mp hl.1
    have h2 : c.toNat ≤ 122 := char_le_iff_toNat.mp hl.2
    have heq : ('=' : Char).toNat = 61 := rfl
    omega
  · rwa [toUpperChar_of_not_lower hl] at h

theorem goToUpper_append (s t : String) : goToUpper (s ++ t) = goToUpper s ++ goToUpper t := by
  cases s with
  | mk ds =>
    cases t with
    | mk dt =>
      show String.mk (List.map toUpperChar (ds ++ dt)) =
        String.mk (ds.map toUpperChar ++ dt.map toUpperChar)
      rw [List.map_append]

theorem goToUpper_idem (s : String) : goToUpper (goToUpper s) = goToUpper s := by
  cases s with
  | mk ds =>
    show String.mk ((ds.map toUpperChar).map toUpperChar) = String.mk (ds.map toUpperChar)
    rw [List.map_map]
    exact congrArg String.mk (List.map_congr_left (fun c _ => toUpperChar_idem c))

theorem goToUpper_not_mem_eq {s : String} (h : '=' ∉ s.toList) : '=' ∉ (goToUpper s).toList := by
  cases s with
  | mk ds =>
    intro hmem
    have : ∃ c ∈ ds, toUpperChar c = '=' := by
      simpa using (List.mem_map.mp hmem)
    obtain ⟨c, hc, hup⟩ := this
    exact h (by simpa [toUpperChar_eq_eq hup] using hc)

theorem loadFromFile_eq (env : Env) (fs : Fs) (v : Variable) (envName : String) :
    v.loadFromFile env fs envName =
      match v.resolvedSuffix with
      | none => .ok none
      | some suf => fileIndirection env fs (goToUpper (envName ++ suf)) suf := by
  unfold Variable.loadFromFile Variable.resolvedSuffix fileIndirection
  cases v.resolveFileLoading with
  | none => rfl
  | some t =>
    by_cases h : goTrimSpace t = "" <;> simp [h]

theorem processVars_cons_ok (env : Env) (fs : Fs) (coerce : Variable → String → Option String)
    (u : Variable) (rest : List Variable) (h : procStepOk env fs coerce u) :
    processVars env fs coerce (u :: rest) = processVars env fs coerce rest := by
  rcases h with ⟨hval, hreq⟩ | ⟨val, hval, hc⟩
  · simp [processVars, hval, hreq]
  · simp [processVars, hval, hc]

theorem processVars_append_ok (env : Env) (fs : Fs) (coerce : Variable → String → Option String)
    (pre rest : List Variable) (h : ∀ u ∈ pre, procStepOk env fs coerce u) :
    processVars env fs coerce (pre ++ rest) = processVars env fs coerce rest := by
  induction pre with
  | nil => rfl
  | cons u us ih =>
    rw [List.cons_append, processVars_cons_ok env fs coerce u _ (h u (by simp)),
      ih (fun x hx => h x (by simp [hx]))]

theorem checkDisallowedLoop_skip (keys : List String) (pfx entry : String) (rest : List String)
    (h : entryOk keys pfx entry) :
    checkDisallowedLoop keys pfx (entry :: rest) = checkDisallowedLoop keys pfx rest := by
  by_cases hs : startsWithGo entry pfx = true
  · have hk := h hs
    simp [checkDisallowedLoop, hs, hk]
  · simp only [Bool.not_eq_true] at hs
    simp [checkDisallowedLoop, hs]

theorem checkDisallowedLoop_first (keys : List String) (pfx : String) (pre : List String)
    (entry : String) (rest : List String) (hpre : ∀ e ∈ pre, entryOk keys pfx e)
    (hs : startsWithGo entry pfx = true) (hmem : entryName entry ∉ keys) :
    checkDisallowedLoop keys pfx (pre ++ entry :: rest) = some (entryName entry) := by
  induction pre with
  | nil =>
    simp [checkDisallowedLoop, hs, hmem]
  | cons e es ih =>
    rw [List.cons_append, checkDisallowedLoop_skip keys pfx e _ (hpre e (by simp)),
      ih (fun x hx => hpre x (by simp [hx]))]

theorem isPrefixOf_append_cons {x : Char} (p a b : List Char) (hx : x ∉ p) :
    List.isPrefixOf p (a ++ x :: b) = List.isPrefixOf p a := by
  induction p generalizing a with
  | nil => simp [List.isPrefixOf]
  | cons y ys ih =>
    cases a with
    | nil =>
      have hyx : (y == x) = false := by
        simp only [beq_eq_false_iff_ne, ne_eq]
        intro h
        exact hx (h ▸ List.mem_cons_self y ys)
      simp [List.isPrefixOf, hyx]
    | cons z a' =>
      simp only [List.cons_append, List.isPrefixOf, List.append_eq]
      rw [ih a' (fun h => hx (List.mem_cons_of_mem y h))]

theorem takeWhile_append_stop {p : Char → Bool} (a : List Char) (x : Char) (b : List Char)
    (ha : ∀ c ∈ a, p c = true) (hx : p x = false) :
    (a ++ x :: b).takeWhile p = a := by
  induction a with
  | nil => simp [List.takeWhile_cons, hx]
  | cons c cs ih =>
    simp [List.takeWhile_cons, ha c (by simp), ih (fun d hd => ha d (by simp [hd]))]

theorem environEntry_toList (k v : String) :
    (environEntry (k, v)).toList = k.toList ++ '=' :: v.toList := by
  cases k with
  | mk dk =>
    cases v with
    | mk dv =>
      show (dk ++ ('=' :: []) ++ dv) = dk ++ '=' :: dv
      simp

theorem entryName_environEntry (k v : String) (hk : '=' ∉ k.toList) :
    entryName (environEntry (k, v)) = k := by
  unfold entryName
  rw [environEntry_toList]
  rw [takeWhile_append_stop _ _ _
    (fun c hc => by
      simp only [ne_eq, decide_eq_true_eq]
      intro h
      exact hk (h ▸ hc))
    (by simp)]
  cases k
  rfl

theorem startsWith_environEntry (k v pfx : String) (hp : '=' ∉ pfx.toList) :
    startsWithGo (environEntry (k, v)) pfx = startsWithGo k pfx := by
  unfold startsWithGo
  rw [environEntry_toList]
  exact isPrefixOf_append_cons _ _ _ hp

theorem processFieldMapPairs_error_cons {κ ν : Type} (procK : String → Except String κ)
    (procV : String → Except String ν) (pair : String) (rest : List String) (e : String)
    (h : mapPairOk procK procV pair)
    (he : processFieldMapPairs procK procV rest = .error e) :
    processFieldMapPairs procK procV (pair :: rest) = .error e := by
  obtain ⟨k0, v0, k, v, hsplit, hk, hv⟩ := h
  simp only [processFieldMapPairs, hsplit, hk, hv, he]
  rfl

theorem processFieldMapPairs_malformed {κ ν : Type} (procK : String → Except String κ)
    (procV : String → Except String ν) (pair : String) (rest : List String)
    (hlen : (splitOnChar ':' pair).length ≠ 2) :
    processFieldMapPairs procK procV (pair :: rest) =
      .error ("invalid map item: \"" ++ pair ++ "\"") := by
  rcases hsp : splitOnChar ':' pair with _ | ⟨a, _ | ⟨b, _ | ⟨c, l⟩⟩⟩ <;>
    simp_all [processFieldMapPairs]

theorem string_toList_append (s t : String) : (s ++ t).toList = s.toList ++ t.toList := by
  cases s
  cases t
  rfl

theorem CheckDisallowed_eq (env : Env) (infos : List Variable) (opts : options)
    (h : opts.prefixStr ≠ "") :
    CheckDisallowed env infos opts =
      checkDisallowedLoop (infos.map (·.key)) (goToUpper opts.prefixStr ++ "_")
        (env.map environEntry) := by
  show checkDisallowedLoop (infos.map (·.key))
      (if opts.prefixStr ≠ "" then goToUpper opts.prefixStr ++ "_" else opts.prefixStr)
      (env.map environEntry) = _
  rw [if_pos h]

theorem processFieldMapPairs_first_malformed {κ ν : Type} (procK : String → Except String κ)
    (procV : String → Except String ν) (pre : List String) (pair : String) (rest : List String)
    (hpre : ∀ q ∈ pre, mapPairOk procK procV q) (hlen : (splitOnChar ':' pair).length ≠ 2) :
    processFieldMapPairs procK procV (pre ++ pair :: rest) =
      .error ("invalid map item: \"" ++ pair ++ "\"") := by
  induction pre with
  | nil => exact processFieldMapPairs_malformed procK procV pair rest hlen
  | cons q qs ih =>
    rw [List.cons_append]
    exact processFieldMapPairs_error_cons procK procV q _ _ (hpre q (by simp))
      (ih (fun x hx => hpre x (by simp [hx])))

/-! ## Claims -/

/-- C1: value resolution follows the precedence (1) environment variable
`key`, (2) file-indirection for `key` when its direct value is absent,
(3) environment variable `altKey` and then its file-indirection, (4) the
tag-declared default — first match wins, file-indirection checked per key
name.  `Variable.value` is the translation of `variable.value`; `valueSpec`
is that cascade written out from the claim. -/
theorem C1_value_resolution_precedence (env : Env) (fs : Fs) (v : Variable) :
    v.value env fs = valueSpec env fs v := by
  unfold Variable.value valueSpec
  cases hk : lookupEnv env v.key with
  | some val =>
    by_cases halt : v.altKey = "" <;>
      simp [Variable.tryEnvNames, Variable.tryEnv, hk, halt]
  | none =>
    cases hl : v.loadFromFile env fs v.key with
    | error e =>
      by_cases halt : v.altKey = "" <;>
        simp [Variable.tryEnvNames, Variable.tryEnv, hk, hl, halt]
    | ok o =>
      cases o with
      | some val =>
        by_cases halt : v.altKey = "" <;>
          simp [Variable.tryEnvNames, Variable.tryEnv, hk, hl, halt]
      | none =>
        by_cases halt : v.altKey = ""
        · simp [Variable.tryEnvNames, Variable.tryEnv, hk, hl, halt]
        · cases hk2 : lookupEnv env v.altKey with
          | some val2 =>
            simp [Variable.tryEnvNames, Variable.tryEnv, hk, hl, hk2, halt]
          | none =>
            cases hl2 : v.loadFromFile env fs v.altKey with
            | error e2 =>
              simp [Variable.tryEnvNames, Variable.tryEnv, hk, hl, hk2, hl2, halt]
            | ok o2 =>
              cases o2 <;>
                simp [Variable.tryEnvNames, Variable.tryEnv, hk, hl, hk2, hl2, halt]

/-- C2: the claim says the child options of a recursive walk equal the
parent's options in every field but the prefix.  The code's `options.copy`
omits `trimSpaces` from the composite literal, so the child always receives
`trimSpaces = false`: evaluating the child-option computation of
`gatherInfo` at the default options (whose `trimSpaces` is `true`) shows
the flag is dropped for both named and embedded nested structs, while
prefix handling behaves as claimed. -/
theorem C2_inner_options_drop_trimSpaces :
    defaultOptions.trimSpaces = true ∧
    innerOptions defaultOptions { name := "Inner" } "PARENT" =
      { prefixStr := "PARENT", isLoadFromFile := true, defaultFileSuffix := "_FILE",
        trimSpaces := false } ∧
    innerOptions defaultOptions { name := "Embedded", anonymous := true } "PARENT" =
      { prefixStr := "", isLoadFromFile := true, defaultFileSuffix := "_FILE",
        trimSpaces := false } := by
  decide

/-- C3 counterexample: with prefix `APP` and an explicit tag name `foo`,
`resolveKey` returns key `APP_FOO` but altKey `FOO`, so the altKey does not
equal the final key when a non-empty prefix is configured. -/
theorem C3_counterexample :
    resolveKey "APP" { name := "X", tag := { envconfig := "foo" } } = ("APP_FOO", "FOO") ∧
    ("APP_FOO" : String) ≠ "FOO" := by
  decide

/-- C3 amended: for a field with an explicit (trimmed non-empty) tag name,
the altKey is the upper-cased tag name; the final key equals the altKey
exactly when no prefix is configured, and otherwise is the upper-cased
prefix joined to the altKey with `_`. -/
theorem C3_explicit_name_key (prefixStr : String) (fieldType : StructField)
    (h : goTrimSpace fieldType.tag.envconfig ≠ "") :
    (resolveKey prefixStr fieldType).2 = goToUpper (goTrimSpace fieldType.tag.envconfig) ∧
    (prefixStr = "" → (resolveKey prefixStr fieldType).1 = (resolveKey prefixStr fieldType).2) ∧
    (prefixStr ≠ "" → (resolveKey prefixStr fieldType).1 =
      goToUpper prefixStr ++ "_" ++ (resolveKey prefixStr fieldType).2) := by
  refine ⟨?_, ?_, ?_⟩
  · simp [resolveKey, h]
  · intro hp
    simp [resolveKey, h, hp, goToUpper_idem]
  · intro hp
    simp only [resolveKey, h, hp, ne_eq, not_false_iff, if_true, ite_true]
    rw [goToUpper_append, goToUpper_append, goToUpper_idem]
    rfl

/-- C3 amended, witness: with no prefix the key and altKey coincide. -/
theorem C3_explicit_name_key_witness :
    (resolveKey "" { name := "X", tag := { envconfig := "foo" } }).1 =
      (resolveKey "" { name := "X", tag := { envconfig := "foo" } }).2 :=
  (C3_explicit_name_key "" { name := "X", tag := { envconfig := "foo" } } (by decide)).2.1 rfl

/-- C4: for a field keyed `FOO` under default options (file-indirection on,
no `file:"false"` tag), `FOO` unset, `FOO_FILE=/path/to/file` and that file
containing `secret`, the resolved value is `secret`; and in general
`loadFromFile` consults the derived variable `upper(keyName + suffix)`
where the suffix is the tag-supplied one when the `file` tag holds a
non-boolean string, and the options' default suffix when the tag is absent
(with loading enabled) or boolean `true`. -/
theorem C4_file_indirection_naming :
    fooVar.value fooEnv fooFs = .ok (some "secret") ∧
    (∀ (env : Env) (fs : Fs) (v : Variable) (envName s : String),
      v.fieldType.tag.file = some s → parseBool s = none → goTrimSpace s = s → s ≠ "" →
      v.loadFromFile env fs envName = fileIndirection env fs (goToUpper (envName ++ s)) s) ∧
    (∀ (env : Env) (fs : Fs) (v : Variable) (envName : String),
      v.fieldType.tag.file = none → v.Opts.isLoadFromFile = true →
      v.loadFromFile env fs envName =
        fileIndirection env fs (goToUpper (envName ++ v.Opts.defaultFileSuffix))
          v.Opts.defaultFileSuffix) ∧
    (∀ (env : Env) (fs : Fs) (v : Variable) (envName s : String),
      v.fieldType.tag.file = some s → parseBool s = some true →
      v.loadFromFile env fs envName =
        fileIndirection env fs (goToUpper (envName ++ v.Opts.defaultFileSuffix))
          v.Opts.defaultFileSuffix) := by
  refine ⟨by decide, ?_, ?_, ?_⟩
  · intro env fs v envName s htag hpb htrim hne
    rw [loadFromFile_eq]
    simp [Variable.resolvedSuffix, Variable.resolveFileLoading, htag, hpb, htrim, hne]
  · intro env fs v envName htag hload
    rw [loadFromFile_eq]
    have hempty : goTrimSpace "" = "" := rfl
    simp [Variable.resolvedSuffix, Variable.resolveFileLoading, htag, hload, hempty]
  · intro env fs v envName s htag hpb
    rw [loadFromFile_eq]
    have hempty : goTrimSpace "" = "" := rfl
    simp [Variable.resolvedSuffix, Variable.resolveFileLoading, htag, hpb, hempty]

/-- C4 witness: a `file:"_PATH"` tag makes `loadFromFile` consult
`upper(K + _PATH)`. -/
theorem C4_file_indirection_naming_witness :
    pathVar.loadFromFile [("K_PATH", "/p")] [("/p", "v")] "K" =
      fileIndirection [("K_PATH", "/p")] [("/p", "v")] (goToUpper ("K" ++ "_PATH")) "_PATH" :=
  C4_file_indirection_naming.2.1 [("K_PATH", "/p")] [("/p", "v")] pathVar "K" "_PATH"
    rfl (by decide) (by decide) (by decide)

/-- C5: file-indirection resolution errors exactly when the derived path
variable is set but trimmed empty, or the referenced file cannot be read;
an absent derived variable is "not found" without error; and `Process`
returns any value-resolution error immediately, processing no further
variable. -/
theorem C5_file_error_conditions :
    (∀ (env : Env) (fs : Fs) (v : Variable) (envName : String),
      (∃ e, v.loadFromFile env fs envName = .error e) ↔
        (∃ suf, v.resolvedSuffix = some suf ∧
          ∃ fp, lookupEnv env (goToUpper (envName ++ suf)) = some fp ∧
            (goTrimSpace fp = "" ∨ readFile fs (goTrimSpace fp) = none))) ∧
    (∀ (env : Env) (fs : Fs) (v : Variable) (envName suf : String),
      v.resolvedSuffix = some suf → lookupEnv env (goToUpper (envName ++ suf)) = none →
      v.loadFromFile env fs envName = .ok none) ∧
    (∀ (env : Env) (fs : Fs) (coerce : Variable → String → Option String)
      (pre : List Variable) (v : Variable) (post : List Variable) (e : VError),
      (∀ u ∈ pre, procStepOk env fs coerce u) → v.value env fs = .error e →
      processVars env fs coerce (pre ++ v :: post) = .error (.valueError e)) := by
  refine ⟨?_, ?_, ?_⟩
  · intro env fs v envName
    rw [loadFromFile_eq]
    cases hs : v.resolvedSuffix with
    | none => simp
    | some suf =>
      unfold fileIndirection
      cases hlk : lookupEnv env (goToUpper (envName ++ suf)) with
      | none => simp [hs, hlk]
      | some fp =>
        by_cases hfp : goTrimSpace fp = ""
        · simp [hs, hlk, hfp]
        · cases hrd : readFile fs (goTrimSpace fp) with
          | none => simp [hs, hlk, hfp, hrd]
          | some contents => simp [hs, hlk, hfp, hrd]
  · intro env fs v envName suf hs hlk
    rw [loadFromFile_eq]
    simp [hs, fileIndirection, hlk]
  · intro env fs coerce pre v post e hpre hval
    rw [processVars_append_ok env fs coerce pre _ hpre]
    simp [processVars, hval]

/-- C5 witness: with no `FOO_FILE` in the environment, `loadFromFile` is
"not found" with no error. -/
theorem C5_file_error_conditions_witness :
    fooVar.loadFromFile [] [] "FOO" = .ok none :=
  C5_file_error_conditions.2.1 [] [] fooVar "FOO" "_FILE" rfl rfl

/-- C6: a required field that resolves to nothing makes `Process` return
the "required key ... missing value" error naming that key; the result does
not depend on the variables after it in the discovered order, so no later
field is resolved or coerced. -/
theorem C6_required_missing_aborts (env : Env) (fs : Fs)
    (coerce : Variable → String → Option String) (pre : List Variable) (v : Variable)
    (post : List Variable) (hpre : ∀ u ∈ pre, procStepOk env fs coerce u)
    (hreq : v.isRequired = true) (hval : v.value env fs = .ok none) :
    processVars env fs coerce (pre ++ v :: post) = .error (.requiredKeyMissing v.key) := by
  rw [processVars_append_ok env fs coerce pre _ hpre]
  simp [processVars, hval, hreq]

/-- C6 witness: a required key with empty environment aborts processing
with the error naming it, whatever variables follow. -/
theorem C6_required_missing_aborts_witness :
    processVars [] [] (fun _ _ => none) ([] ++ requiredVar :: [fooVar]) =
      .error (.requiredKeyMissing "NEEDED") :=
  C6_required_missing_aborts [] [] (fun _ _ => none) [] requiredVar [fooVar]
    (by intro u hu; exact absurd hu (List.not_mem_nil u)) (by decide) (by decide)

/-- C7: for a map-typed field, an empty or whitespace-only resolved string
yields the empty (non-nil) map; otherwise the string splits on `,` into
pair tokens, each split on `:` — the first token not splitting into exactly
two parts (all earlier pairs being well-formed) fails coercion with the
`invalid map item` error, as the concrete `"a:1:2"` and `"a"` examples
show; and `"a:1,b:2"` for a string-to-int map yields exactly the entries
`a = 1` and `b = 2`. -/
theorem C7_map_coercion :
    (∀ {κ ν : Type} (procK : String → Except String κ) (procV : String → Except String ν)
      (value : String), goTrimSpace value = "" → processFieldMap procK procV value = .ok []) ∧
    (∀ {κ ν : Type} (procK : String → Except String κ) (procV : String → Except String ν)
      (value pair : String) (pre rest : List String), goTrimSpace value ≠ "" →
      splitOnChar ',' value = pre ++ pair :: rest → (∀ q ∈ pre, mapPairOk procK procV q) →
      (splitOnChar ':' pair).length ≠ 2 →
      processFieldMap procK procV value = .error ("invalid map item: \"" ++ pair ++ "\"")) ∧
    processFieldMap coerceString parseIntGo "a:1:2" = .error "invalid map item: \"a:1:2\"" ∧
    processFieldMap coerceString parseIntGo "a" = .error "invalid map item: \"a\"" ∧
    processFieldMap coerceString parseIntGo "a:1,b:2" = .ok [("a", 1), ("b", 2)] := by
  refine ⟨?_, ?_, by decide, by decide, by decide⟩
  · intro κ ν procK procV value hval
    simp [processFieldMap, hval]
  · intro κ ν procK procV value pair pre rest hval hsplit hpre hlen
    unfold processFieldMap
    rw [if_neg hval, hsplit]
    exact processFieldMapPairs_first_malformed procK procV pre pair rest hpre hlen

/-- C7 witness: a whitespace-only value coerces to the empty map. -/
theorem C7_map_coercion_witness :
    processFieldMap coerceString parseIntGo "  " = .ok [] :=
  C7_map_coercion.1 coerceString parseIntGo "  " (by decide)

/-- C8: with `split_words` set and no explicit name tag, the key derived
from `APIKey` is `API_KEY` and from `DBHost` is `DB_HOST`; `splitWords`
decomposes the identifiers at upper-case-run boundaries, a run of capitals
before lower case splitting as acronym plus new word. -/
theorem C8_split_words :
    resolveKey "" { name := "APIKey", tag := { splitWords := "true" } } = ("API_KEY", "") ∧
    resolveKey "" { name := "DBHost", tag := { splitWords := "true" } } = ("DB_HOST", "") ∧
    splitWords "APIKey" = ["API", "Key"] ∧ splitWords "DBHost" = ["DB", "Host"] := by
  decide

/-- C9: with prefix `APP` and only `APP_PORT` declared, `CheckDisallowed`
errors naming `APP_HOST` when `APP_PORT=1, APP_HOST=x` are set and returns
no error with only `APP_PORT=1`; in general it reports the first
environment entry (in enumeration order) whose name carries the scanned
prefix `upper(prefix) + "_"` but is not a discovered key. -/
theorem C9_check_disallowed :
    CheckDisallowed [("APP_PORT", "1"), ("APP_HOST", "x")] [portVar] appOpts =
      some "APP_HOST" ∧
    CheckDisallowed [("APP_PORT", "1")] [portVar] appOpts = none ∧
    (∀ (env : Env) (infos : List Variable) (opts : options)
      (pre : List (String × String)) (q : String × String) (rest : List (String × String)),
      env = pre ++ q :: rest → opts.prefixStr ≠ "" →
      (∀ p ∈ env, '=' ∉ p.1.toList) → '=' ∉ opts.prefixStr.toList →
      (∀ p ∈ pre, startsWithGo p.1 (goToUpper opts.prefixStr ++ "_") = true →
        p.1 ∈ infos.map (·.key)) →
      startsWithGo q.1 (goToUpper opts.prefixStr ++ "_") = true →
      q.1 ∉ infos.map (·.key) →
      CheckDisallowed env infos opts = some q.1) := by
  refine ⟨by decide, by decide, ?_⟩
  intro env infos opts pre q rest henv hopts hne hpfx hpre hq hnot
  obtain ⟨qk, qv⟩ := q
  subst henv
  have hqk : '=' ∉ qk.toList := by
    have := hne (qk, qv) (by simp)
    simpa using this
  have hpfx2 : '=' ∉ (goToUpper opts.prefixStr ++ "_").toList := by
    rw [string_toList_append]
    simp only [List.mem_append, not_or]
    exact ⟨goToUpper_not_mem_eq hpfx, by decide⟩
  have hsw : startsWithGo (environEntry (qk, qv)) (goToUpper opts.prefixStr ++ "_") = true := by
    rw [startsWith_environEntry qk qv _ hpfx2]
    exact hq
  have hnm : entryName (environEntry (qk, qv)) = qk := entryName_environEntry qk qv hqk
  have hpre' : ∀ e ∈ pre.map environEntry,
      entryOk (infos.map (·.key)) (goToUpper opts.prefixStr ++ "_") e := by
    intro e he
    obtain ⟨⟨k, w⟩, hp, rfl⟩ := List.mem_map.mp he
    intro hsw2
    have hk : '=' ∉ k.toList := by
      have := hne (k, w) (List.mem_append_left _ hp)
      simpa using this
    rw [startsWith_environEntry k w _ hpfx2] at hsw2
    rw [entryName_environEntry k w hk]
    exact hpre (k, w) hp hsw2
  rw [CheckDisallowed_eq _ _ _ hopts, List.map_append, List.map_cons]
  rw [checkDisallowedLoop_first (infos.map (·.key)) _ (pre.map environEntry)
    (environEntry (qk, qv)) (rest.map environEntry) hpre' hsw (by rw [hnm]; exact hnot)]
  rw [hnm]

/-- C9 witness: the undeclared `APP_HOST`, second in enumeration order
after the declared `APP_PORT`, is the entry reported. -/
theorem C9_check_disallowed_witness :
    CheckDisallowed [("APP_PORT", "1"), ("APP_HOST", "x")] [portVar] appOpts =
      some "APP_HOST" :=
  C9_check_disallowed.2.2 [("APP_PORT", "1"), ("APP_HOST", "x")] [portVar] appOpts
    [("APP_PORT", "1")] ("APP_HOST", "x") [] rfl (by decide)
    (by
      intro p hp
      simp only [List.mem_cons, List.not_mem_nil, or_false] at hp
      rcases hp with rfl | rfl <;> decide)
    (by decide)
    (by
      intro p hp
      simp only [List.mem_cons, List.not_mem_nil, or_false] at hp
      subst hp
      intro _
      decide)
    (by decide) (by decide)

/-- C10: the whitelist of `CheckDisallowed` is exactly the discovered
primary keys, so a derived file-indirection variable such as
`APP_SECRET_FILE` — which `Process` itself reads to load the value of the
field keyed `APP_SECRET` — is reported as unknown whenever it carries the
scanned prefix and is not itself a discovered key. -/
theorem C10_whitelist_excludes_file_vars :
    CheckDisallowed [("APP_SECRET_FILE", "/run/secret")] [secretVar] appOpts =
      some "APP_SECRET_FILE" ∧
    secretVar.value [("APP_SECRET_FILE", "/run/secret")] [("/run/secret", "s3cr3t")] =
      .ok (some "s3cr3t") ∧
    [secretVar].map (·.key) = ["APP_SECRET"] ∧
    (∀ (v : Variable) (opts : options) (suf path : String),
      v.resolvedSuffix = some suf → opts.prefixStr ≠ "" →
      '=' ∉ opts.prefixStr.toList → '=' ∉ (goToUpper (v.key ++ suf)).toList →
      startsWithGo (goToUpper (v.key ++ suf)) (goToUpper opts.prefixStr ++ "_") = true →
      goToUpper (v.key ++ suf) ≠ v.key →
      CheckDisallowed [(goToUpper (v.key ++ suf), path)] [v] opts =
        some (goToUpper (v.key ++ suf))) := by
  refine ⟨by decide, by decide, by decide, ?_⟩
  intro v opts suf path hsuf hopts hpfx hfname hsw hne
  have hpfx2 : '=' ∉ (goToUpper opts.prefixStr ++ "_").toList := by
    rw [string_toList_append]
    simp only [List.mem_append, not_or]
    exact ⟨goToUpper_not_mem_eq hpfx, by decide⟩
  have hvac : ∀ e ∈ ([] : List String),
      entryOk ([v].map (·.key)) (goToUpper opts.prefixStr ++ "_") e :=
    fun e he => absurd he (List.not_mem_nil e)
  have hs : startsWithGo (environEntry (goToUpper (v.key ++ suf), path))
      (goToUpper opts.prefixStr ++ "_") = true := by
    rw [startsWith_environEntry _ _ _ hpfx2]
    exact hsw
  have hmem : entryName (environEntry (goToUpper (v.key ++ suf), path)) ∉
      [v].map (·.key) := by
    rw [entryName_environEntry _ _ hfname]
    simp [hne]
  have hmain := checkDisallowedLoop_first ([v].map (·.key))
    (goToUpper opts.prefixStr ++ "_") []
    (environEntry (goToUpper (v.key ++ suf), path)) [] hvac hs hmem
  rw [entryName_environEntry _ _ hfname] at hmain
  rw [CheckDisallowed_eq _ _ _ hopts]
  exact hmain

/-- C10 witness: the derived variable `APP_SECRET_FILE` of the field keyed
`APP_SECRET` is itself reported as unknown. -/
theorem C10_whitelist_excludes_file_vars_witness :
    CheckDisallowed [(goToUpper (secretVar.key ++ "_FILE"), "/run/secret")] [secretVar]
      appOpts = some (goToUpper (secretVar.key ++ "_FILE")) :=
  C10_whitelist_excludes_file_vars.2.2.2 secretVar appOpts "_FILE" "/run/secret"
    (by decide) (by decide) (by decide) (by decide) (by decide) (by decide)

end Envconfig
